import Mathlib

/-!
Shallow embedding of `include/mutex.h` (namespace `baidu::common`): an
error-checking pthread mutex wrapper (`Mutex`), a scope guard (`MutexLock`)
and a condition variable (`CondVar`), with optional diagnostics guarded by
the `MUTEX_DEBUG` compile-time flag (commented out in the shipped source).

Modelling conventions:
* Thread identities (`pthread_t`) are natural numbers; `0` is the value
  `owner_` is initialised to, and `pthread_equal` is equality.
* The OS mutex `mu_` is modelled sequentially by `holder : Option Nat`:
  the thread currently holding the primitive, if any.  A lock call made
  while another thread holds the primitive blocks until it is free and
  then acquires it, so in the sequential abstraction it acquires with
  return value 0; relocking by the current holder returns `EDEADLK`
  (`PTHREAD_MUTEX_ERRORCHECK`), and unlocking by a non-holder returns
  `EPERM` and leaves the primitive untouched.
* Every call to `timer::get_micros()` / `gettimeofday` is an input: the
  reading the clock produced is passed as an explicit argument.
* The `MUTEX_DEBUG` preprocessor flag is the `dbg : Bool` argument.
* Each operation returns an `Outcome`: either `ok` with a result, the
  final state and the ordered trace of observable events, or `aborted`
  (the `abort()` inside `PthreadCall` or `AssertHeld`) carrying the
  diagnostic operation name and the state at the moment of the abort.
-/

namespace MutexH

def EDEADLK : Int := 35

def EPERM : Int := 1

def ETIMEDOUT : Int := 110

def EINVAL : Int := 22

structure Timespec where
  tv_sec : Int
  tv_nsec : Int
  deriving DecidableEq

structure Timeval where
  tv_sec : Int
  tv_usec : Int
  deriving DecidableEq

/-- Observable events of one operation, in program order. -/
inductive Event where
  | readClock (t : Int)
  | osAcquire (result : Int)
  | osRelease (result : Int)
  | setOwner (t : Nat)
  | clearOwner
  | cvRelease
  | cvReacquire
  | cvTimedRelease (deadline : Timespec)
  | osCondWaitErr (result : Int)
  | emitWaitDiag (m : String) (elapsedMicros : Int)
  | emitHoldDiag (m : String) (elapsedMicros : Int)
  deriving DecidableEq

/-- The fields of `class Mutex`: the OS primitive `mu_` (as `holder`) and
the bookkeeping members `owner_`, `msg_`, `msg_threshold_`, `lock_time_`. -/
structure MutexState where
  holder : Option Nat
  owner_ : Nat
  msg_ : Option String
  msg_threshold_ : Int
  lock_time_ : Int
  deriving DecidableEq

/-- `Mutex::Mutex()`: member initialisers
`owner_(0), msg_(NULL), msg_threshold_(0), lock_time_(0)`, with the OS
primitive initialised (successfully) in error-checking mode. -/
def Mutex.init : MutexState :=
  { holder := none, owner_ := 0, msg_ := none, msg_threshold_ := 0, lock_time_ := 0 }

/-- Result of an operation: normal return, or `abort()` from `PthreadCall`
(or `AssertHeld`), with the diagnostic operation name and the state at the
moment of the abort. -/
inductive Outcome (α : Type) where
  | ok (val : α) (st : MutexState) (evs : List Event)
  | aborted (opName : String) (st : MutexState) (evs : List Event)
  deriving DecidableEq

/-- `pthread_mutex_lock` on the error-checking mutex, sequential
abstraction (see the module comment). -/
def pthreadMutexLock (self : Nat) (st : MutexState) : Int × MutexState :=
  if st.holder = some self then (EDEADLK, st)
  else (0, { st with holder := some self })

/-- `pthread_mutex_unlock` on the error-checking mutex. -/
def pthreadMutexUnlock (self : Nat) (st : MutexState) : Int × MutexState :=
  if st.holder = some self then (0, { st with holder := none })
  else (EPERM, st)

/-- `Mutex::AfterLock(msg, msg_threshold)`: under `MUTEX_DEBUG` stores
`msg_`, `msg_threshold_` and, when `msg` is non-null, `lock_time_ =
timer::get_micros()` (the reading is `now`); always sets
`owner_ = pthread_self()`. -/
def afterLock (dbg : Bool) (self : Nat) (msg : Option String) (msg_threshold : Int)
    (now : Int) (st : MutexState) : MutexState × List Event :=
  if dbg then
    let st1 := { st with msg_ := msg, msg_threshold_ := msg_threshold }
    if msg.isSome then
      ({ st1 with lock_time_ := now, owner_ := self },
       [Event.readClock now, Event.setOwner self])
    else
      ({ st1 with owner_ := self }, [Event.setOwner self])
  else
    ({ st with owner_ := self }, [Event.setOwner self])

/-- `Mutex::BeforeUnlock()`: under `MUTEX_DEBUG`, if `msg_` is non-null and
`timer::get_micros() - lock_time_ > msg_threshold_` (the reading is `now`)
it prints the hold-time diagnostic, then clears `msg_`; always sets
`owner_ = 0`. -/
def beforeUnlock (dbg : Bool) (now : Int) (st : MutexState) : MutexState × List Event :=
  if dbg then
    match st.msg_ with
    | some m =>
      if now - st.lock_time_ > st.msg_threshold_ then
        ({ st with msg_ := none, owner_ := 0 },
         [Event.readClock now, Event.emitHoldDiag m (now - st.lock_time_), Event.clearOwner])
      else
        ({ st with msg_ := none, owner_ := 0 },
         [Event.readClock now, Event.clearOwner])
    | none => ({ st with msg_ := none, owner_ := 0 }, [Event.clearOwner])
  else
    ({ st with owner_ := 0 }, [Event.clearOwner])

/-- The trailing `#ifdef MUTEX_DEBUG` block of `Mutex::Lock`:
`if (msg && lock_time_ - s > msg_threshold) printf(... wait lock ...)`,
where `lockTime` is the member `lock_time_` just written by `AfterLock`. -/
def waitDiagEvs (dbg : Bool) (msg : Option String) (msg_threshold s lockTime : Int) :
    List Event :=
  if dbg then
    match msg with
    | some m =>
      if lockTime - s > msg_threshold then [Event.emitWaitDiag m (lockTime - s)] else []
    | none => []
  else []

/-- `Mutex::Lock(msg, msg_threshold)`.  `sRead` is the reading of the
`timer::get_micros()` call in `int64_t s = (msg) ? timer::get_micros() : 0`
(taken only under `MUTEX_DEBUG` and only when `msg` is non-null); `nowAfter`
is the reading taken inside `AfterLock`.  A nonzero result of
`pthread_mutex_lock` goes through `PthreadCall("mutex lock", ...)`, which
aborts. -/
def Mutex.Lock (dbg : Bool) (self : Nat) (msg : Option String) (msg_threshold : Int)
    (sRead nowAfter : Int) (st : MutexState) : Outcome Unit :=
  let s : Int := if msg.isSome then sRead else 0
  let evs0 : List Event := if dbg && msg.isSome then [Event.readClock sRead] else []
  let r := (pthreadMutexLock self st).1
  let st1 := (pthreadMutexLock self st).2
  if r ≠ 0 then
    Outcome.aborted "mutex lock" st1 (evs0 ++ [Event.osAcquire r])
  else
    let st2 := (afterLock dbg self msg msg_threshold nowAfter st1).1
    let evs2 := (afterLock dbg self msg msg_threshold nowAfter st1).2
    Outcome.ok () st2
      (evs0 ++ [Event.osAcquire r] ++ evs2
        ++ waitDiagEvs dbg msg msg_threshold s st2.lock_time_)

/-- `Mutex::Unlock()`: `BeforeUnlock()` then
`PthreadCall("mutex unlock", pthread_mutex_unlock(&mu_))`. -/
def Mutex.Unlock (dbg : Bool) (self : Nat) (now : Int) (st : MutexState) : Outcome Unit :=
  let st1 := (beforeUnlock dbg now st).1
  let evs1 := (beforeUnlock dbg now st).2
  let r := (pthreadMutexUnlock self st1).1
  let st2 := (pthreadMutexUnlock self st1).2
  if r ≠ 0 then
    Outcome.aborted "mutex unlock" st2 (evs1 ++ [Event.osRelease r])
  else
    Outcome.ok () st2 (evs1 ++ [Event.osRelease r])

/-- `Mutex::AssertHeld()`: `abort()` iff
`0 == pthread_equal(owner_, pthread_self())`, i.e. iff the stored owner
differs from the calling thread; otherwise no state is touched. -/
def Mutex.AssertHeld (self : Nat) (st : MutexState) : Outcome Unit :=
  if st.owner_ = self then Outcome.ok () st []
  else Outcome.aborted "AssertHeld abort" st []

/-- `CondVar::Wait(msg)`: saves `mu_->msg_threshold_`, calls
`mu_->BeforeUnlock()`, then
`PthreadCall("condvar wait", pthread_cond_wait(&cond_, &mu_->mu_))` -- a
blocking release of the OS mutex followed by reacquisition -- and finally
`mu_->AfterLock(msg, msg_threshold)`.  `nowBefore`/`nowAfter` are the clock
readings of `BeforeUnlock`/`AfterLock`; `waitResult` is the return value of
`pthread_cond_wait` (nonzero aborts through `PthreadCall`). -/
def CondVar.Wait (dbg : Bool) (self : Nat) (msg : Option String)
    (nowBefore nowAfter : Int) (waitResult : Int) (st : MutexState) : Outcome Unit :=
  let msg_threshold := st.msg_threshold_
  let st1 := (beforeUnlock dbg nowBefore st).1
  let evs1 := (beforeUnlock dbg nowBefore st).2
  if waitResult ≠ 0 then
    Outcome.aborted "condvar wait" st1 (evs1 ++ [Event.osCondWaitErr waitResult])
  else
    let stR : MutexState := { st1 with holder := some self }
    let st2 := (afterLock dbg self msg msg_threshold nowAfter stR).1
    let evs2 := (afterLock dbg self msg msg_threshold nowAfter stR).2
    Outcome.ok () st2 (evs1 ++ [Event.cvRelease, Event.cvReacquire] ++ evs2)

/-- The deadline computation of `CondVar::TimeWait`:
`int64_t usec = tv.tv_usec + timeout * 1000LL;`
`ts.tv_sec = tv.tv_sec + usec / 1000000; ts.tv_nsec = (usec % 1000000) * 1000;`
(all in 64-bit arithmetic, `timeout` being widened by the `LL` literal). -/
def computeDeadline (tv : Timeval) (timeout : Int) : Timespec :=
  let usec : Int := tv.tv_usec + timeout * 1000
  { tv_sec := tv.tv_sec + usec / 1000000, tv_nsec := (usec % 1000000) * 1000 }

/-- `CondVar::TimeWait(timeout, msg)`: computes the absolute deadline from
`gettimeofday` (reading `tv`), saves `mu_->msg_threshold_`, calls
`mu_->BeforeUnlock()`, then `pthread_cond_timedwait` (return value `ret`,
NOT routed through `PthreadCall`; the OS mutex is reacquired on every
return), then `mu_->AfterLock(msg, msg_threshold)`, and returns
`ret == 0`. -/
def CondVar.TimeWait (dbg : Bool) (self : Nat) (timeout : Int) (msg : Option String)
    (tv : Timeval) (nowBefore nowAfter : Int) (ret : Int) (st : MutexState) : Outcome Bool :=
  let ts := computeDeadline tv timeout
  let msg_threshold := st.msg_threshold_
  let st1 := (beforeUnlock dbg nowBefore st).1
  let evs1 := (beforeUnlock dbg nowBefore st).2
  let stR : MutexState := { st1 with holder := some self }
  let st2 := (afterLock dbg self msg msg_threshold nowAfter stR).1
  let evs2 := (afterLock dbg self msg msg_threshold nowAfter stR).2
  Outcome.ok (ret == 0) st2 (evs1 ++ [Event.cvTimedRelease ts, Event.cvReacquire] ++ evs2)

/-- How the body of a scope holding a `MutexLock` guard ends: falling off
the end, an early `return`, or unwinding on an error.  The guard's
destructor runs in all three cases. -/
inductive ScopeExit where
  | normal
  | earlyReturn
  | unwind
  deriving DecidableEq

/-- The `MutexLock` constructor body: binds `mu_(mu)` and calls
`mu_->Lock(msg, msg_threshold)` with both arguments forwarded unchanged. -/
def MutexLock.construct (dbg : Bool) (self : Nat) (msg : Option String)
    (msg_threshold : Int) (sRead nowAfter : Int) (st : MutexState) : Outcome Unit :=
  Mutex.Lock dbg self msg msg_threshold sRead nowAfter st

/-- The `MutexLock` destructor body: `mu_->Unlock()` on the same (`const`)
mutex pointer the constructor stored. -/
def MutexLock.destruct (dbg : Bool) (self : Nat) (now : Int) (st : MutexState) : Outcome Unit :=
  Mutex.Unlock dbg self now st

/-- A scope that declares a `MutexLock` guard: the constructor acquires,
the body runs (ending by normal completion, early return or unwind), and
C++ automatic-storage semantics run the destructor on every one of those
exit paths. -/
def scopedMutexLock (dbg : Bool) (self : Nat) (msg : Option String) (msg_threshold : Int)
    (sRead nowAfter nowUnlock : Int) (body : MutexState → ScopeExit × MutexState)
    (st : MutexState) : Outcome ScopeExit :=
  match MutexLock.construct dbg self msg msg_threshold sRead nowAfter st with
  | Outcome.aborted op stA evsA => Outcome.aborted op stA evsA
  | Outcome.ok _ st1 evs1 =>
    let ex := (body st1).1
    let st2 := (body st1).2
    match MutexLock.destruct dbg self nowUnlock st2 with
    | Outcome.aborted op stA evsA => Outcome.aborted op stA (evs1 ++ evsA)
    | Outcome.ok _ st3 evs3 => Outcome.ok ex st3 (evs1 ++ evs3)

/-- The spec's ownership invariant: `owner_` is set (to the holding
thread's nonzero identity) iff the lock is currently held. -/
def ownerIffHeld (st : MutexState) : Prop :=
  (st.holder = none → st.owner_ = 0) ∧
  (∀ t, st.holder = some t → st.owner_ = t ∧ 0 < t)

/-- `e1` occurs in `evs` and every occurrence of `e1` precedes every
occurrence of `e2`: the decomposition names the last `e1` and the first
`e2`. -/
def occursBefore (e1 e2 : Event) (evs : List Event) : Prop :=
  ∃ a b c, evs = a ++ e1 :: b ++ e2 :: c ∧ e1 ∉ b ∧ e1 ∉ c ∧ e2 ∉ a ∧ e2 ∉ b

/-! Helper lemmas about the bookkeeping routines. -/

theorem beforeUnlock_holder (dbg : Bool) (now : Int) (st : MutexState) :
    ((beforeUnlock dbg now st).1).holder = st.holder := by
  unfold beforeUnlock
  cases dbg
  · simp
  · cases hm : st.msg_ <;> simp [hm]
    split <;> simp

theorem beforeUnlock_owner (dbg : Bool) (now : Int) (st : MutexState) :
    ((beforeUnlock dbg now st).1).owner_ = 0 := by
  unfold beforeUnlock
  cases dbg
  · simp
  · cases hm : st.msg_ <;> simp [hm]
    split <;> simp

theorem beforeUnlock_threshold (dbg : Bool) (now : Int) (st : MutexState) :
    ((beforeUnlock dbg now st).1).msg_threshold_ = st.msg_threshold_ := by
  unfold beforeUnlock
  cases dbg
  · simp
  · cases hm : st.msg_ <;> simp [hm]
    split <;> simp

theorem beforeUnlock_evs (dbg : Bool) (now : Int) (st : MutexState) :
    ∃ pre, (beforeUnlock dbg now st).2 = pre ++ [Event.clearOwner]
      ∧ (∀ r, Event.osRelease r ∉ pre)
      ∧ Event.cvRelease ∉ pre
      ∧ (∀ ts, Event.cvTimedRelease ts ∉ pre)
      ∧ Event.clearOwner ∉ pre := by
  unfold beforeUnlock
  cases dbg
  · exact ⟨[], by simp⟩
  · cases hm : st.msg_ with
    | none => exact ⟨[], by simp [hm]⟩
    | some m =>
      by_cases hc : now - st.lock_time_ > st.msg_threshold_
      · exact ⟨[Event.readClock now, Event.emitHoldDiag m (now - st.lock_time_)],
          by simp [hm, hc]⟩
      · exact ⟨[Event.readClock now], by simp [hm, hc]⟩

theorem afterLock_owner (dbg : Bool) (self : Nat) (msg : Option String) (thr now : Int)
    (st : MutexState) :
    ((afterLock dbg self msg thr now st).1).owner_ = self := by
  unfold afterLock
  cases dbg <;> simp
  cases msg <;> simp

theorem afterLock_holder (dbg : Bool) (self : Nat) (msg : Option String) (thr now : Int)
    (st : MutexState) :
    ((afterLock dbg self msg thr now st).1).holder = st.holder := by
  unfold afterLock
  cases dbg <;> simp
  cases msg <;> simp

theorem afterLock_evs (dbg : Bool) (self : Nat) (msg : Option String) (thr now : Int)
    (st : MutexState) :
    (afterLock dbg self msg thr now st).2 = [Event.setOwner self]
    ∨ (afterLock dbg self msg thr now st).2 = [Event.readClock now, Event.setOwner self] := by
  unfold afterLock
  cases dbg <;> simp
  cases msg <;> simp

theorem afterLock_dbg_fields (self : Nat) (msg : Option String) (thr now : Int)
    (st : MutexState) :
    ((afterLock true self msg thr now st).1).msg_ = msg
    ∧ ((afterLock true self msg thr now st).1).msg_threshold_ = thr
    ∧ (msg.isSome = true → ((afterLock true self msg thr now st).1).lock_time_ = now) := by
  cases msg <;> simp [afterLock]

theorem beforeUnlock_evs_shape (dbg : Bool) (now : Int) (st : MutexState) :
    (beforeUnlock dbg now st).2 = [Event.clearOwner]
    ∨ (beforeUnlock dbg now st).2 = [Event.readClock now, Event.clearOwner]
    ∨ ∃ m, st.msg_ = some m ∧ now - st.lock_time_ > st.msg_threshold_
        ∧ (beforeUnlock dbg now st).2
          = [Event.readClock now, Event.emitHoldDiag m (now - st.lock_time_),
             Event.clearOwner] := by
  unfold beforeUnlock
  cases dbg
  · simp
  · cases hm : st.msg_ with
    | none => simp
    | some m =>
      by_cases hc : now - st.lock_time_ > st.msg_threshold_
      · exact Or.inr (Or.inr ⟨m, rfl, hc, by simp [hc]⟩)
      · exact Or.inr (Or.inl (by simp [hc]))

theorem beforeUnlock_evs_mem (dbg : Bool) (now : Int) (st : MutexState) (e : Event)
    (he : e ∈ (beforeUnlock dbg now st).2) :
    e = Event.clearOwner ∨ e = Event.readClock now
      ∨ ∃ m, e = Event.emitHoldDiag m (now - st.lock_time_) := by
  rcases beforeUnlock_evs_shape dbg now st with h | h | ⟨m, _, _, h⟩ <;> rw [h] at he <;>
    simp at he <;> tauto

theorem afterLock_evs_mem (dbg : Bool) (self : Nat) (msg : Option String) (thr now : Int)
    (st : MutexState) (e : Event) (he : e ∈ (afterLock dbg self msg thr now st).2) :
    e = Event.setOwner self ∨ e = Event.readClock now := by
  rcases afterLock_evs dbg self msg thr now st with h | h <;> rw [h] at he <;>
    simp at he <;> tauto

theorem afterLock_evs_split (dbg : Bool) (self : Nat) (msg : Option String) (thr now : Int)
    (st : MutexState) :
    ∃ b2, (afterLock dbg self msg thr now st).2 = b2 ++ [Event.setOwner self]
      ∧ ∀ e ∈ b2, e = Event.readClock now := by
  rcases afterLock_evs dbg self msg thr now st with h | h
  · exact ⟨[], by simp [h]⟩
  · exact ⟨[Event.readClock now], by simp [h]⟩

theorem lockPre_mem (dbg : Bool) (msg : Option String) (sRead : Int) (e : Event)
    (he : e ∈ (if dbg && msg.isSome then [Event.readClock sRead] else [])) :
    e = Event.readClock sRead := by
  by_cases h : (dbg && msg.isSome) = true <;> simp [h] at he
  exact he

theorem waitDiagEvs_shape (dbg : Bool) (msg : Option String) (thr s lt : Int) :
    waitDiagEvs dbg msg thr s lt = []
    ∨ ∃ m, msg = some m ∧ waitDiagEvs dbg msg thr s lt = [Event.emitWaitDiag m (lt - s)] := by
  unfold waitDiagEvs
  cases dbg
  · simp
  · cases msg with
    | none => simp
    | some m =>
      by_cases hc : lt - s > thr
      · exact Or.inr ⟨m, rfl, by simp [hc]⟩
      · simp [hc]

theorem waitDiagEvs_mem (dbg : Bool) (msg : Option String) (thr s lt : Int) (e : Event)
    (he : e ∈ waitDiagEvs dbg msg thr s lt) : ∃ m, e = Event.emitWaitDiag m (lt - s) := by
  rcases waitDiagEvs_shape dbg msg thr s lt with h | ⟨m, _, h⟩ <;> rw [h] at he <;>
    simp at he
  exact ⟨m, he⟩

theorem occursBefore_of_eq (e1 e2 : Event) (evs a b c : List Event)
    (h : evs = a ++ e1 :: b ++ e2 :: c)
    (h1 : e1 ∉ b) (h2 : e1 ∉ c) (h3 : e2 ∉ a) (h4 : e2 ∉ b) :
    occursBefore e1 e2 evs := ⟨a, b, c, h, h1, h2, h3, h4⟩

/-- Complete case analysis of `Mutex::Lock`: either the calling thread
already holds the error-checking mutex and the lock call fails with
`EDEADLK`, which `PthreadCall` turns into an abort; or the mutex is
(eventually) acquired and `AfterLock` runs. -/
theorem lock_cases (dbg : Bool) (self : Nat) (msg : Option String)
    (thr sRead nowAfter : Int) (st : MutexState) :
    (st.holder = some self ∧ Mutex.Lock dbg self msg thr sRead nowAfter st
        = Outcome.aborted "mutex lock" st
            ((if dbg && msg.isSome then [Event.readClock sRead] else [])
              ++ [Event.osAcquire EDEADLK]))
    ∨ (st.holder ≠ some self ∧ Mutex.Lock dbg self msg thr sRead nowAfter st
        = Outcome.ok ()
            (afterLock dbg self msg thr nowAfter { st with holder := some self }).1
            ((if dbg && msg.isSome then [Event.readClock sRead] else [])
              ++ [Event.osAcquire 0]
              ++ (afterLock dbg self msg thr nowAfter { st with holder := some self }).2
              ++ waitDiagEvs dbg msg thr (if msg.isSome then sRead else 0)
                  ((afterLock dbg self msg thr nowAfter
                      { st with holder := some self }).1).lock_time_)) := by
  by_cases h : st.holder = some self
  · exact Or.inl ⟨h, by simp [Mutex.Lock, pthreadMutexLock, h, EDEADLK]⟩
  · exact Or.inr ⟨h, by simp [Mutex.Lock, pthreadMutexLock, h]⟩

/-- Complete case analysis of `Mutex::Unlock`: `BeforeUnlock` always runs
first; then the OS unlock either succeeds (caller held the primitive) or
fails with `EPERM`, which `PthreadCall` turns into an abort. -/
theorem unlock_cases (dbg : Bool) (self : Nat) (now : Int) (st : MutexState) :
    (st.holder = some self ∧ Mutex.Unlock dbg self now st
        = Outcome.ok () { (beforeUnlock dbg now st).1 with holder := none }
            ((beforeUnlock dbg now st).2 ++ [Event.osRelease 0]))
    ∨ (st.holder ≠ some self ∧ Mutex.Unlock dbg self now st
        = Outcome.aborted "mutex unlock" ((beforeUnlock dbg now st).1)
            ((beforeUnlock dbg now st).2 ++ [Event.osRelease EPERM])) := by
  have hh : ((beforeUnlock dbg now st).1).holder = st.holder := beforeUnlock_holder dbg now st
  by_cases h : st.holder = some self
  · exact Or.inl ⟨h, by simp [Mutex.Unlock, pthreadMutexUnlock, hh, h]⟩
  · exact Or.inr ⟨h, by simp [Mutex.Unlock, pthreadMutexUnlock, hh, h, EPERM]⟩

/-- `CondVar::Wait` when the OS wait succeeds: `BeforeUnlock`, the blocking
release/reacquisition, then `AfterLock` with the threshold saved before the
wait. -/
theorem wait_ok (dbg : Bool) (self : Nat) (msg : Option String) (nowB nowA : Int)
    (st : MutexState) :
    CondVar.Wait dbg self msg nowB nowA 0 st
      = Outcome.ok ()
          (afterLock dbg self msg st.msg_threshold_ nowA
            { (beforeUnlock dbg nowB st).1 with holder := some self }).1
          ((beforeUnlock dbg nowB st).2 ++ [Event.cvRelease, Event.cvReacquire]
            ++ (afterLock dbg self msg st.msg_threshold_ nowA
                { (beforeUnlock dbg nowB st).1 with holder := some self }).2) := by
  simp [CondVar.Wait]

/-- `CondVar::TimeWait` never aborts: it always ends in `AfterLock` and the
boolean `ret == 0`. -/
theorem timeWait_ok (dbg : Bool) (self : Nat) (timeout : Int) (msg : Option String)
    (tv : Timeval) (nowB nowA ret : Int) (st : MutexState) :
    CondVar.TimeWait dbg self timeout msg tv nowB nowA ret st
      = Outcome.ok (ret == 0)
          (afterLock dbg self msg st.msg_threshold_ nowA
            { (beforeUnlock dbg nowB st).1 with holder := some self }).1
          ((beforeUnlock dbg nowB st).2
            ++ [Event.cvTimedRelease (computeDeadline tv timeout), Event.cvReacquire]
            ++ (afterLock dbg self msg st.msg_threshold_ nowA
                { (beforeUnlock dbg nowB st).1 with holder := some self }).2) := rfl

/-! Claim theorems. -/

/-- C4: `AssertHeld` aborts the process iff the calling thread's identity
differs from the stored owner identity; a thread that never acquired the
lock (owner still the initial `0`, or another thread) is aborted, and when
the caller is the owner `AssertHeld` returns normally changing no state. -/
theorem assertHeld_abort_iff (self : Nat) (st : MutexState) :
    (Mutex.AssertHeld self st = Outcome.aborted "AssertHeld abort" st [] ↔ st.owner_ ≠ self)
    ∧ (st.owner_ = 0 → self ≠ 0 →
        Mutex.AssertHeld self st = Outcome.aborted "AssertHeld abort" st [])
    ∧ (st.owner_ = self → Mutex.AssertHeld self st = Outcome.ok () st []) := by
  unfold Mutex.AssertHeld
  by_cases h : st.owner_ = self <;> simp [h]

/-- Witness for C4: on a fresh mutex, thread 1 is aborted by `AssertHeld`. -/
theorem assertHeld_abort_iff_witness :
    Mutex.AssertHeld 1 Mutex.init = Outcome.aborted "AssertHeld abort" Mutex.init [] :=
  (assertHeld_abort_iff 1 Mutex.init).2.1 rfl (by decide)

/-- C7: for a non-negative timeout and a wall-clock reading with
`0 ≤ tv_usec < 1000000`, the absolute deadline `TimeWait` computes equals
the current time plus exactly `timeout` milliseconds, its nanosecond field
lies in `[0, 999999999]`, the ms-to-us product stays below `2^63` for every
32-bit timeout, and `TimeWait` passes exactly this deadline to the OS
timed wait. -/
theorem timeWait_deadline (tv : Timeval) (timeout : Int)
    (h1 : 0 ≤ timeout) (h2 : 0 ≤ tv.tv_usec) (h3 : tv.tv_usec < 1000000) :
    (computeDeadline tv timeout).tv_sec * 1000000000 + (computeDeadline tv timeout).tv_nsec
        = (tv.tv_sec * 1000000 + tv.tv_usec + timeout * 1000) * 1000
    ∧ 0 ≤ (computeDeadline tv timeout).tv_nsec
    ∧ (computeDeadline tv timeout).tv_nsec ≤ 999999999
    ∧ (timeout < 2 ^ 31 → tv.tv_usec + timeout * 1000 < 2 ^ 63)
    ∧ (∀ dbg self msg nowBefore nowAfter ret st, ∃ st2 evs,
        CondVar.TimeWait dbg self timeout msg tv nowBefore nowAfter ret st
          = Outcome.ok (ret == 0) st2 evs
        ∧ Event.cvTimedRelease (computeDeadline tv timeout) ∈ evs) := by
  refine ⟨?_, ?_, ?_, ?_, ?_⟩
  · unfold computeDeadline; simp only; omega
  · unfold computeDeadline; simp only; omega
  · unfold computeDeadline; simp only; omega
  · intro h4; omega
  · intro dbg self msg nowBefore nowAfter ret st
    refine ⟨_, _, rfl, ?_⟩
    simp

/-- Witness for C7 at `tv = (0s, 999999us)`, `timeout = 5ms`. -/
theorem timeWait_deadline_witness :
    (computeDeadline ⟨0, 999999⟩ 5).tv_sec * 1000000000 + (computeDeadline ⟨0, 999999⟩ 5).tv_nsec
      = ((0 : Int) * 1000000 + 999999 + 5 * 1000) * 1000 :=
  (timeWait_deadline ⟨0, 999999⟩ 5 (by decide) (by decide) (by decide)).1

/-- C2 (counterexample): when the OS timed wait fails with `EINVAL` — a
nonzero return that is not the timeout indication — `TimeWait` does not
abort the process; it returns `false` to the caller. -/
theorem timeWait_einval_counterexample :
    CondVar.TimeWait false 1 100 none ⟨0, 0⟩ 0 0 EINVAL
      { holder := some 1, owner_ := 1, msg_ := none, msg_threshold_ := 0, lock_time_ := 0 }
      = Outcome.ok false
          { holder := some 1, owner_ := 1, msg_ := none, msg_threshold_ := 0, lock_time_ := 0 }
          [Event.clearOwner, Event.cvTimedRelease ⟨0, 100000000⟩, Event.cvReacquire,
           Event.setOwner 1] := by
  decide

/-- C2 (amended): `TimeWait` always returns normally with value
`ret == 0` — `true` iff the OS timed wait reported success, `false` both
on timeout and on every other nonzero OS result; no OS failure of the
timed wait is routed to fatal termination. -/
theorem timeWait_returns_os_success (dbg : Bool) (self : Nat) (timeout : Int)
    (msg : Option String) (tv : Timeval) (nowBefore nowAfter ret : Int) (st : MutexState) :
    ∃ st2 evs, CondVar.TimeWait dbg self timeout msg tv nowBefore nowAfter ret st
      = Outcome.ok (ret == 0) st2 evs :=
  ⟨_, _, rfl⟩

/-- C10: `Unlock` by a thread that does not hold the mutex clears the
stored owner (in `BeforeUnlock`) before the OS unlock detects the
wrong-owner error: the process aborts, but the state at the abort already
has `owner_ = 0`, and `clearOwner` precedes the failing OS release. -/
theorem unlock_nonowner_clears_owner_before_abort (dbg : Bool) (self : Nat) (now : Int)
    (st : MutexState) (h : st.holder ≠ some self) :
    ∃ evs, Mutex.Unlock dbg self now st
        = Outcome.aborted "mutex unlock" ((beforeUnlock dbg now st).1) evs
      ∧ ((beforeUnlock dbg now st).1).owner_ = 0
      ∧ occursBefore Event.clearOwner (Event.osRelease EPERM) evs := by
  obtain ⟨pre, hpre, hnoRel, _, _, _⟩ := beforeUnlock_evs dbg now st
  have hh : ((beforeUnlock dbg now st).1).holder = st.holder := beforeUnlock_holder dbg now st
  refine ⟨(beforeUnlock dbg now st).2 ++ [Event.osRelease EPERM], ?_,
    beforeUnlock_owner dbg now st, ?_⟩
  · simp only [Mutex.Unlock, pthreadMutexUnlock, hh, h]
    simp [EPERM]
  · rw [hpre]
    exact ⟨pre, [], [], by simp, by simp, by simp, by simpa using hnoRel EPERM, by simp⟩

/-- C8: with `MUTEX_DEBUG` disabled, `Lock`'s behaviour is independent of
the supplied label and threshold (and of the clock): two runs differing
only in them produce identical outcomes, no diagnostic line and no clock
read is produced by `Lock` or by `Unlock`, and the only state change
besides the OS primitive is the owner field. -/
theorem lock_nodbg_label_independent (self : Nat) (msg1 msg2 : Option String)
    (thr1 thr2 s1 s2 n1 n2 now : Int) (st : MutexState) :
    Mutex.Lock false self msg1 thr1 s1 n1 st = Mutex.Lock false self msg2 thr2 s2 n2 st
    ∧ (∀ st2 evs, Mutex.Lock false self msg1 thr1 s1 n1 st = Outcome.ok () st2 evs →
        st2 = { st with holder := some self, owner_ := self }
        ∧ evs = [Event.osAcquire 0, Event.setOwner self])
    ∧ (∀ st2 evs, Mutex.Unlock false self now st = Outcome.ok () st2 evs →
        evs = [Event.clearOwner, Event.osRelease 0]) := by
  refine ⟨?_, ?_, ?_⟩
  · by_cases h : st.holder = some self <;>
      simp [Mutex.Lock, pthreadMutexLock, afterLock, waitDiagEvs, h]
  · intro st2 evs hok
    rcases lock_cases false self msg1 thr1 s1 n1 st with ⟨h, heq⟩ | ⟨h, heq⟩
    · rw [heq] at hok; exact absurd hok (by simp)
    · rw [heq] at hok
      simp only [afterLock, waitDiagEvs, Bool.false_and, if_false] at hok
      simp only [Outcome.ok.injEq] at hok
      exact ⟨hok.2.1.symm, by simp [hok.2.2.symm]⟩
  · intro st2 evs hok
    rcases unlock_cases false self now st with ⟨h, heq⟩ | ⟨h, heq⟩
    · rw [heq] at hok
      simp only [beforeUnlock, Bool.false_eq_true, if_false] at hok
      simp only [Outcome.ok.injEq] at hok
      simp [hok.2.2.symm]
    · rw [heq] at hok; exact absurd hok (by simp)

/-- Witness for C8: two debug-disabled `Lock` calls with different labels
and thresholds on a fresh mutex coincide. -/
theorem lock_nodbg_label_independent_witness :
    Mutex.Lock false 1 (some "a") 7 3 4 Mutex.init
      = Mutex.Lock false 1 none 9 5 6 Mutex.init :=
  (lock_nodbg_label_independent 1 (some "a") none 7 9 3 5 4 6 0 Mutex.init).1

/-- C9: with `MUTEX_DEBUG` enabled and a label supplied, a successful
`Lock` records the acquisition timestamp in `lock_time_` and emits the
wait-time diagnostic exactly when the elapsed time from the entry of
`Lock` (reading `sRead`) to the acquisition timestamp (reading `nowAfter`)
exceeds the supplied threshold, and emits nothing otherwise. -/
theorem lock_dbg_wait_diag (self : Nat) (m : String) (thr sRead nowAfter : Int)
    (st : MutexState) (h : st.holder ≠ some self) :
    Mutex.Lock true self (some m) thr sRead nowAfter st
      = Outcome.ok ()
          { holder := some self, owner_ := self, msg_ := some m,
            msg_threshold_ := thr, lock_time_ := nowAfter }
          ([Event.readClock sRead, Event.osAcquire 0, Event.readClock nowAfter,
            Event.setOwner self]
            ++ if nowAfter - sRead > thr then [Event.emitWaitDiag m (nowAfter - sRead)]
               else [])
    ∧ ∀ x d, Event.emitWaitDiag x d ∈
        ([Event.readClock sRead, Event.osAcquire 0, Event.readClock nowAfter,
          Event.setOwner self]
          ++ if nowAfter - sRead > thr then [Event.emitWaitDiag m (nowAfter - sRead)]
             else [])
        ↔ (x = m ∧ d = nowAfter - sRead ∧ nowAfter - sRead > thr) := by
  constructor
  · by_cases hc : nowAfter - sRead > thr <;>
      simp [Mutex.Lock, pthreadMutexLock, afterLock, waitDiagEvs, h, hc]
  · intro x d
    by_cases hc : nowAfter - sRead > thr <;> simp [hc]

/-- Witness for C9: threshold 0, wait of 5 microseconds: the diagnostic
line is emitted and the acquisition timestamp is recorded. -/
theorem lock_dbg_wait_diag_witness :
    Mutex.Lock true 1 (some "L") 0 0 5 Mutex.init
      = Outcome.ok ()
          { holder := some 1, owner_ := 1, msg_ := some "L",
            msg_threshold_ := 0, lock_time_ := 5 }
          [Event.readClock 0, Event.osAcquire 0, Event.readClock 5, Event.setOwner 1,
           Event.emitWaitDiag "L" 5] := by
  have h := (lock_dbg_wait_diag 1 "L" 0 0 5 Mutex.init (by decide)).1
  simpa using h

/-- C3: `Lock` never returns an error code: whenever the OS lock result is
nonzero — in particular the `EDEADLK` produced when the calling thread
already holds this error-checking mutex — the process aborts with a
diagnostic naming the failing operation, and a second `Lock` from the
same thread without an intervening `Unlock` is never silently granted. -/
theorem lock_error_aborts (dbg : Bool) (self : Nat) (msg : Option String)
    (thr sRead nowAfter : Int) (st : MutexState) :
    ((pthreadMutexLock self st).1 ≠ 0 → ∃ evs,
        Mutex.Lock dbg self msg thr sRead nowAfter st
          = Outcome.aborted "mutex lock" st evs)
    ∧ (st.holder = some self → ∃ evs,
        Mutex.Lock dbg self msg thr sRead nowAfter st
          = Outcome.aborted "mutex lock" st evs)
    ∧ (∀ st2 evs, Mutex.Lock dbg self msg thr sRead nowAfter st = Outcome.ok () st2 evs →
        ∀ dbg2 msg2 thr2 s2 n2, ∃ evs2,
          Mutex.Lock dbg2 self msg2 thr2 s2 n2 st2
            = Outcome.aborted "mutex lock" st2 evs2) := by
  have habort : st.holder = some self → ∃ evs,
      Mutex.Lock dbg self msg thr sRead nowAfter st
        = Outcome.aborted "mutex lock" st evs := by
    intro h
    rcases lock_cases dbg self msg thr sRead nowAfter st with ⟨_, heq⟩ | ⟨h2, _⟩
    · exact ⟨_, heq⟩
    · exact absurd h h2
  refine ⟨?_, habort, ?_⟩
  · intro hr
    apply habort
    by_contra h
    exact hr (by simp [pthreadMutexLock, h])
  · intro st2 evs hok dbg2 msg2 thr2 s2 n2
    rcases lock_cases dbg self msg thr sRead nowAfter st with ⟨_, heq⟩ | ⟨h, heq⟩
    · rw [heq] at hok; exact absurd hok (by simp)
    · rw [heq] at hok
      simp only [Outcome.ok.injEq] at hok
      have hself : st2.holder = some self := by
        rw [← hok.2.1]; exact afterLock_holder dbg self msg thr nowAfter _
      rcases lock_cases dbg2 self msg2 thr2 s2 n2 st2 with ⟨_, heq2⟩ | ⟨h2, _⟩
      · exact ⟨_, heq2⟩
      · exact absurd hself h2

/-- Witness for C3: a second `Lock` by thread 1 on a mutex it already
holds aborts with the `mutex lock` diagnostic. -/
theorem lock_error_aborts_witness :
    ∃ evs, Mutex.Lock false 1 none 5000 0 0
        { holder := some 1, owner_ := 1, msg_ := none, msg_threshold_ := 0, lock_time_ := 0 }
      = Outcome.aborted "mutex lock"
          { holder := some 1, owner_ := 1, msg_ := none, msg_threshold_ := 0,
            lock_time_ := 0 } evs :=
  (lock_error_aborts false 1 none 5000 0 0
    { holder := some 1, owner_ := 1, msg_ := none, msg_threshold_ := 0,
      lock_time_ := 0 }).2.1 rfl

/-- C5: the `MutexLock` guard's constructor is exactly `Lock` on its
target mutex with the optional label/threshold forwarded unchanged, its
destructor is exactly `Unlock` on the same mutex, and in a scope holding
the guard the destructor runs after the body on every exit path (normal
completion, early return, or unwind), so acquisition and release are
always paired. -/
theorem scoped_lock_pairs (dbg : Bool) (self : Nat) (msg : Option String)
    (thr sRead nowAfter nowUnlock : Int) (body : MutexState → ScopeExit × MutexState)
    (st : MutexState) :
    MutexLock.construct dbg self msg thr sRead nowAfter st
      = Mutex.Lock dbg self msg thr sRead nowAfter st
    ∧ MutexLock.destruct dbg self nowUnlock st = Mutex.Unlock dbg self nowUnlock st
    ∧ (∀ st1 evs1,
        MutexLock.construct dbg self msg thr sRead nowAfter st = Outcome.ok () st1 evs1 →
        scopedMutexLock dbg self msg thr sRead nowAfter nowUnlock body st
          = match MutexLock.destruct dbg self nowUnlock (body st1).2 with
            | Outcome.aborted op stA evsA => Outcome.aborted op stA (evs1 ++ evsA)
            | Outcome.ok _ st3 evs3 => Outcome.ok (body st1).1 st3 (evs1 ++ evs3)) := by
  refine ⟨rfl, rfl, ?_⟩
  intro st1 evs1 hok
  unfold scopedMutexLock
  rw [hok]

/-- Witness for C5: a body that exits by early return still ends with the
mutex released by the guard's destructor. -/
theorem scoped_lock_pairs_witness :
    scopedMutexLock false 1 none 0 0 0 0 (fun s => (ScopeExit.earlyReturn, s)) Mutex.init
      = Outcome.ok ScopeExit.earlyReturn Mutex.init
          [Event.osAcquire 0, Event.setOwner 1, Event.clearOwner, Event.osRelease 0] := by
  have h := (scoped_lock_pairs false 1 none 0 0 0 0
      (fun s => (ScopeExit.earlyReturn, s)) Mutex.init).2.2
    { holder := some 1, owner_ := 1, msg_ := none, msg_threshold_ := 0, lock_time_ := 0 }
    [Event.osAcquire 0, Event.setOwner 1] (by decide)
  rw [h]
  decide

/-- Witness for C10: thread 2 unlocking a mutex held by thread 1. -/
theorem unlock_nonowner_clears_owner_before_abort_witness :
    ∃ evs, Mutex.Unlock false 2 0
        { holder := some 1, owner_ := 1, msg_ := none, msg_threshold_ := 0, lock_time_ := 0 }
        = Outcome.aborted "mutex unlock"
            ((beforeUnlock false 0
              { holder := some 1, owner_ := 1, msg_ := none, msg_threshold_ := 0,
                lock_time_ := 0 }).1) evs
      ∧ ((beforeUnlock false 0
            { holder := some 1, owner_ := 1, msg_ := none, msg_threshold_ := 0,
              lock_time_ := 0 }).1).owner_ = 0
      ∧ occursBefore Event.clearOwner (Event.osRelease EPERM) evs :=
  unlock_nonowner_clears_owner_before_abort false 2 0
    { holder := some 1, owner_ := 1, msg_ := none, msg_threshold_ := 0, lock_time_ := 0 }
    (by decide)

/-- C1: the owner field is set (to the holding thread's nonzero identity)
iff the lock is currently held, and every operation preserves this:
`Lock` sets the owner only after the OS lock is acquired, `Unlock` clears
the owner before the OS lock is released, and `Wait`/`TimeWait` clear the
owner before the blocking release and set it again only after
reacquisition. -/
theorem owner_iff_held_invariant (dbg : Bool) (self : Nat) (hs : 0 < self)
    (msg : Option String) (thr sRead nowAfter nowB nowA nowU ret timeout : Int)
    (tv : Timeval) (st : MutexState) :
    ownerIffHeld Mutex.init
    ∧ (∀ st2 evs, Mutex.Lock dbg self msg thr sRead nowAfter st = Outcome.ok () st2 evs →
        ownerIffHeld st2 ∧ occursBefore (Event.osAcquire 0) (Event.setOwner self) evs)
    ∧ (∀ st2 evs, Mutex.Unlock dbg self nowU st = Outcome.ok () st2 evs →
        ownerIffHeld st2 ∧ occursBefore Event.clearOwner (Event.osRelease 0) evs)
    ∧ (∀ st2 evs, CondVar.Wait dbg self msg nowB nowA 0 st = Outcome.ok () st2 evs →
        ownerIffHeld st2 ∧ occursBefore Event.clearOwner Event.cvRelease evs
        ∧ occursBefore Event.cvReacquire (Event.setOwner self) evs)
    ∧ (∀ v st2 evs,
        CondVar.TimeWait dbg self timeout msg tv nowB nowA ret st = Outcome.ok v st2 evs →
        ownerIffHeld st2
        ∧ occursBefore Event.clearOwner
            (Event.cvTimedRelease (computeDeadline tv timeout)) evs
        ∧ occursBefore Event.cvReacquire (Event.setOwner self) evs) := by
  refine ⟨(by simp [ownerIffHeld, Mutex.init]), ?_, ?_, ?_, ?_⟩
  · -- Lock
    intro st2 evs hok
    rcases lock_cases dbg self msg thr sRead nowAfter st with ⟨_, heq⟩ | ⟨h, heq⟩
    · rw [heq] at hok; exact absurd hok (by simp)
    · rw [heq] at hok
      simp only [Outcome.ok.injEq] at hok
      obtain ⟨b2, hb2, hb2mem⟩ :=
        afterLock_evs_split dbg self msg thr nowAfter { st with holder := some self }
      constructor
      · rw [← hok.2.1]
        refine ⟨fun hnone => ?_, fun t ht => ?_⟩
        · rw [afterLock_holder] at hnone; simp at hnone
        · rw [afterLock_holder] at ht
          simp at ht
          subst ht
          exact ⟨afterLock_owner _ _ _ _ _ _, hs⟩
      · rw [← hok.2.2]
        refine occursBefore_of_eq _ _ _
          (if dbg && msg.isSome then [Event.readClock sRead] else []) b2
          (waitDiagEvs dbg msg thr (if msg.isSome then sRead else 0)
            ((afterLock dbg self msg thr nowAfter
              { st with holder := some self }).1).lock_time_) ?_ ?_ ?_ ?_ ?_
        · simp [hb2]
        · intro hm; exact absurd (hb2mem _ hm) (by simp)
        · intro hm
          obtain ⟨m2, hm2⟩ := waitDiagEvs_mem _ _ _ _ _ _ hm
          simp at hm2
        · intro hm; exact absurd (lockPre_mem _ _ _ _ hm) (by simp)
        · intro hm; exact absurd (hb2mem _ hm) (by simp)
  · -- Unlock
    intro st2 evs hok
    rcases unlock_cases dbg self nowU st with ⟨h, heq⟩ | ⟨_, heq⟩
    · rw [heq] at hok
      simp only [Outcome.ok.injEq] at hok
      constructor
      · rw [← hok.2.1]
        refine ⟨fun _ => beforeUnlock_owner dbg nowU st, fun t ht => ?_⟩
        simp at ht
      · rw [← hok.2.2]
        obtain ⟨pre, hpre, hnoRel, _, _, _⟩ := beforeUnlock_evs dbg nowU st
        refine occursBefore_of_eq _ _ _ pre [] [] ?_ ?_ ?_ (hnoRel 0) ?_
        · simp [hpre]
        · simp
        · simp
        · simp
    · rw [heq] at hok; exact absurd hok (by simp)
  · -- Wait
    intro st2 evs hok
    rw [wait_ok] at hok
    simp only [Outcome.ok.injEq] at hok
    obtain ⟨pre, hpre, _, hnoCvRel, _, _⟩ := beforeUnlock_evs dbg nowB st
    obtain ⟨b2, hb2, hb2mem⟩ := afterLock_evs_split dbg self msg st.msg_threshold_ nowA
      { (beforeUnlock dbg nowB st).1 with holder := some self }
    refine ⟨?_, ?_, ?_⟩
    · rw [← hok.2.1]
      refine ⟨fun hnone => ?_, fun t ht => ?_⟩
      · rw [afterLock_holder] at hnone; simp at hnone
      · rw [afterLock_holder] at ht
        simp at ht
        subst ht
        exact ⟨afterLock_owner _ _ _ _ _ _, hs⟩
    · rw [← hok.2.2]
      refine occursBefore_of_eq _ _ _ pre []
        (Event.cvReacquire
          :: (afterLock dbg self msg st.msg_threshold_ nowA
              { (beforeUnlock dbg nowB st).1 with holder := some self }).2)
        ?_ (by simp) ?_ hnoCvRel (by simp)
      · simp [hpre]
      · intro hm
        rcases List.mem_cons.mp hm with hm | hm
        · simp at hm
        · rcases afterLock_evs_mem _ _ _ _ _ _ _ hm with h1 | h1 <;> simp at h1
    · rw [← hok.2.2]
      refine occursBefore_of_eq _ _ _
        ((beforeUnlock dbg nowB st).2 ++ [Event.cvRelease]) b2 [] ?_ ?_ (by simp) ?_ ?_
      · simp [hb2]
      · intro hm; exact absurd (hb2mem _ hm) (by simp)
      · intro hm
        rcases List.mem_append.mp hm with hm | hm
        · rcases beforeUnlock_evs_mem _ _ _ _ hm with h1 | h1 | ⟨m1, h1⟩ <;> simp at h1
        · simp at hm
      · intro hm; exact absurd (hb2mem _ hm) (by simp)
  · -- TimeWait
    intro v st2 evs hok
    rw [timeWait_ok] at hok
    simp only [Outcome.ok.injEq] at hok
    obtain ⟨pre, hpre, _, _, hnoCvTRel, _⟩ := beforeUnlock_evs dbg nowB st
    obtain ⟨b2, hb2, hb2mem⟩ := afterLock_evs_split dbg self msg st.msg_threshold_ nowA
      { (beforeUnlock dbg nowB st).1 with holder := some self }
    refine ⟨?_, ?_, ?_⟩
    · rw [← hok.2.1]
      refine ⟨fun hnone => ?_, fun t ht => ?_⟩
      · rw [afterLock_holder] at hnone; simp at hnone
      · rw [afterLock_holder] at ht
        simp at ht
        subst ht
        exact ⟨afterLock_owner _ _ _ _ _ _, hs⟩
    · rw [← hok.2.2]
      refine occursBefore_of_eq _ _ _ pre []
        (Event.cvReacquire
          :: (afterLock dbg self msg st.msg_threshold_ nowA
              { (beforeUnlock dbg nowB st).1 with holder := some self }).2)
        ?_ (by simp) ?_ (hnoCvTRel _) (by simp)
      · simp [hpre]
      · intro hm
        rcases List.mem_cons.mp hm with hm | hm
        · simp at hm
        · rcases afterLock_evs_mem _ _ _ _ _ _ _ hm with h1 | h1 <;> simp at h1
    · rw [← hok.2.2]
      refine occursBefore_of_eq _ _ _
        ((beforeUnlock dbg nowB st).2
          ++ [Event.cvTimedRelease (computeDeadline tv timeout)]) b2 [] ?_ ?_ (by simp) ?_ ?_
      · simp [hb2]
      · intro hm; exact absurd (hb2mem _ hm) (by simp)
      · intro hm
        rcases List.mem_append.mp hm with hm | hm
        · rcases beforeUnlock_evs_mem _ _ _ _ hm with h1 | h1 | ⟨m1, h1⟩ <;> simp at h1
        · simp at hm
      · intro hm; exact absurd (hb2mem _ hm) (by simp)

/-- Witness for C1: thread 1 locking a fresh mutex re-establishes the
invariant and acquires the OS lock before recording ownership. -/
theorem owner_iff_held_invariant_witness :
    ownerIffHeld { holder := some 1, owner_ := 1, msg_ := none,
                   msg_threshold_ := 0, lock_time_ := 0 }
    ∧ occursBefore (Event.osAcquire 0) (Event.setOwner 1)
        [Event.osAcquire 0, Event.setOwner 1] :=
  (owner_iff_held_invariant false 1 (by decide) none 0 0 0 0 0 0 0 0 ⟨0, 0⟩
      Mutex.init).2.1
    { holder := some 1, owner_ := 1, msg_ := none, msg_threshold_ := 0, lock_time_ := 0 }
    [Event.osAcquire 0, Event.setOwner 1] (by decide)

/-- C6: `Wait` performs the before-unlock bookkeeping (hold diagnostic if
due, owner clearing) before the blocking release, and the after-lock
bookkeeping (owner recording, fresh timestamp, with the threshold in
effect before the wait) only after reacquisition; a hold-time diagnostic
reported by a later `Unlock` therefore measures from the post-wait
timestamp, never including the time spent blocked. -/
theorem wait_suspends_bookkeeping (self : Nat) (msg : Option String) (m : String)
    (nowB nowA : Int) (st : MutexState) :
    ∀ st2 evs, CondVar.Wait true self msg nowB nowA 0 st = Outcome.ok () st2 evs →
      st2.msg_threshold_ = st.msg_threshold_
      ∧ st2.owner_ = self
      ∧ st2.msg_ = msg
      ∧ (msg.isSome = true → st2.lock_time_ = nowA)
      ∧ occursBefore Event.clearOwner Event.cvRelease evs
      ∧ occursBefore Event.cvReacquire (Event.setOwner self) evs
      ∧ (st.msg_ = some m → nowB - st.lock_time_ > st.msg_threshold_ →
          occursBefore (Event.emitHoldDiag m (nowB - st.lock_time_)) Event.cvRelease evs)
      ∧ (∀ nu st3 evs3, Mutex.Unlock true self nu st2 = Outcome.ok () st3 evs3 →
          ∀ x d, Event.emitHoldDiag x d ∈ evs3 →
            msg = some x ∧ d = nu - nowA ∧ d > st.msg_threshold_) := by
  intro st2 evs hok
  rw [wait_ok] at hok
  simp only [Outcome.ok.injEq] at hok
  obtain ⟨hf1, hf2, hf3⟩ := afterLock_dbg_fields self msg st.msg_threshold_ nowA
    { (beforeUnlock true nowB st).1 with holder := some self }
  obtain ⟨pre, hpre, _, hnoCvRel, _, _⟩ := beforeUnlock_evs true nowB st
  obtain ⟨b2, hb2, hb2mem⟩ := afterLock_evs_split true self msg st.msg_threshold_ nowA
    { (beforeUnlock true nowB st).1 with holder := some self }
  refine ⟨?_, ?_, ?_, ?_, ?_, ?_, ?_, ?_⟩
  · rw [← hok.2.1]; exact hf2
  · rw [← hok.2.1]; exact afterLock_owner _ _ _ _ _ _
  · rw [← hok.2.1]; exact hf1
  · intro hsome; rw [← hok.2.1]; exact hf3 hsome
  · rw [← hok.2.2]
    refine occursBefore_of_eq _ _ _ pre []
      (Event.cvReacquire
        :: (afterLock true self msg st.msg_threshold_ nowA
            { (beforeUnlock true nowB st).1 with holder := some self }).2)
      ?_ (by simp) ?_ hnoCvRel (by simp)
    · simp [hpre]
    · intro hm
      rcases List.mem_cons.mp hm with hm | hm
      · simp at hm
      · rcases afterLock_evs_mem _ _ _ _ _ _ _ hm with h1 | h1 <;> simp at h1
  · rw [← hok.2.2]
    refine occursBefore_of_eq _ _ _
      ((beforeUnlock true nowB st).2 ++ [Event.cvRelease]) b2 [] ?_ ?_ (by simp) ?_ ?_
    · simp [hb2]
    · intro hm; exact absurd (hb2mem _ hm) (by simp)
    · intro hm
      rcases List.mem_append.mp hm with hm | hm
      · rcases beforeUnlock_evs_mem _ _ _ _ hm with h1 | h1 | ⟨m1, h1⟩ <;> simp at h1
      · simp at hm
    · intro hm; exact absurd (hb2mem _ hm) (by simp)
  · intro hm hcond
    have h1 : (beforeUnlock true nowB st).2
        = [Event.readClock nowB, Event.emitHoldDiag m (nowB - st.lock_time_),
           Event.clearOwner] := by
      simp [beforeUnlock, hm, hcond]
    rw [← hok.2.2]
    refine occursBefore_of_eq _ _ _ [Event.readClock nowB] [Event.clearOwner]
      (Event.cvReacquire
        :: (afterLock true self msg st.msg_threshold_ nowA
            { (beforeUnlock true nowB st).1 with holder := some self }).2)
      ?_ (by simp) ?_ (by simp) (by simp)
    · simp [h1]
    · intro hmm
      rcases List.mem_cons.mp hmm with hmm | hmm
      · simp at hmm
      · rcases afterLock_evs_mem _ _ _ _ _ _ _ hmm with h2 | h2 <;> simp at h2
  · intro nu st3 evs3 hok3 x d hmem
    rcases unlock_cases true self nu st2 with ⟨h4, heq4⟩ | ⟨h4, heq4⟩
    · rw [heq4] at hok3
      simp only [Outcome.ok.injEq] at hok3
      rw [← hok3.2.2] at hmem
      have hmsg2 : st2.msg_ = msg := by rw [← hok.2.1]; exact hf1
      have hth2 : st2.msg_threshold_ = st.msg_threshold_ := by rw [← hok.2.1]; exact hf2
      rcases beforeUnlock_evs_shape true nu st2 with hbs | hbs | ⟨m4, hm4, hc4, hbs⟩ <;>
        rw [hbs] at hmem
      · simp at hmem
      · simp at hmem
      · simp at hmem
        have hmsg4 : msg = some m4 := by rw [← hmsg2]; exact hm4
        have hlt2 : st2.lock_time_ = nowA := by
          rw [← hok.2.1]; exact hf3 (by rw [hmsg4]; rfl)
        rw [hlt2] at hmem
        rw [hlt2, hth2] at hc4
        exact ⟨by rw [hmsg4, hmem.1], hmem.2, hmem.2 ▸ hc4⟩
    · rw [heq4] at hok3; exact absurd hok3 (by simp)

/-- Witness for C6: thread 1 waits with label `w` on a mutex it holds with
label `h` due for a hold diagnostic; the diagnostic is emitted before the
blocking release. -/
theorem wait_suspends_bookkeeping_witness :
    occursBefore Event.clearOwner Event.cvRelease
      [Event.readClock 10, Event.emitHoldDiag "h" 10, Event.clearOwner, Event.cvRelease,
       Event.cvReacquire, Event.readClock 20, Event.setOwner 1] :=
  ((wait_suspends_bookkeeping 1 (some "w") "h" 10 20
      { holder := some 1, owner_ := 1, msg_ := some "h", msg_threshold_ := 0,
        lock_time_ := 0 })
    { holder := some 1, owner_ := 1, msg_ := some "w", msg_threshold_ := 0,
      lock_time_ := 20 }
    [Event.readClock 10, Event.emitHoldDiag "h" 10, Event.clearOwner, Event.cvRelease,
     Event.cvReacquire, Event.readClock 20, Event.setOwner 1]
    (by decide)).2.2.2.2.1

end MutexH
